import Mathlib

/-!
Shallow embedding of the api-gateway core (Go) and verification of its
specification claims.  Each Go function referenced by a claim is translated
into an executable Lean definition; theorems about those definitions settle
the claims.  Times are modelled as integers (nanoseconds or seconds as in
the corresponding Go call sites); machine ints are modelled as `Nat`/`Int`
(no value in the modelled code paths approaches 2^63, and every modelled
counter is reset or incremented by 1 only).
-/

namespace circuitbreaker

/-- The three breaker states of `internal/circuitbreaker` (`StateClosed`,
`StateOpen`, `StateHalfOpen`). -/
inductive State where
  | closed
  | opened
  | halfOpen
deriving DecidableEq, Repr

/-- Mutable state plus configuration of `CircuitBreaker` (breaker.go).
`lastFailureTime` and `lastStateChange` are clock readings in the same
units as the `now` arguments passed to the operations. -/
structure CircuitBreaker where
  state : State
  failureCount : Nat
  successCount : Nat
  lastFailureTime : Int
  lastStateChange : Int
  maxFailures : Nat
  timeout : Int
  halfOpenSuccess : Nat
deriving DecidableEq, Repr

/-- `New` (breaker.go): defaulting of non-positive config values and the
initial state.  Config ints are modelled as `Int` so that the `<= 0`
defaulting tests translate directly. -/
def New (maxFailures : Int) (timeout : Int) (halfOpenSuccess : Int) (now : Int) :
    CircuitBreaker :=
  { state := State.closed
    failureCount := 0
    successCount := 0
    lastFailureTime := 0
    lastStateChange := now
    maxFailures := if maxFailures ≤ 0 then 5 else maxFailures.toNat
    timeout := if timeout ≤ 0 then 30 else timeout
    halfOpenSuccess := if halfOpenSuccess ≤ 0 then 1 else halfOpenSuccess.toNat }

/-- `setState` (breaker.go): records the state-change time only on an
actual change. -/
def setState (cb : CircuitBreaker) (newState : State) (now : Int) : CircuitBreaker :=
  if cb.state ≠ newState then
    { cb with state := newState, lastStateChange := now }
  else
    cb

/-- `onFailure` (breaker.go). -/
def onFailure (cb : CircuitBreaker) (now : Int) : CircuitBreaker :=
  let cb := { cb with failureCount := cb.failureCount + 1, lastFailureTime := now }
  if cb.state = State.halfOpen then
    let cb := setState cb State.opened now
    { cb with successCount := 0 }
  else if cb.failureCount ≥ cb.maxFailures then
    setState cb State.opened now
  else
    cb

/-- `onSuccess` (breaker.go). -/
def onSuccess (cb : CircuitBreaker) (now : Int) : CircuitBreaker :=
  match cb.state with
  | State.halfOpen =>
      let cb := { cb with successCount := cb.successCount + 1 }
      if cb.successCount ≥ cb.halfOpenSuccess then
        let cb := setState cb State.closed now
        { cb with failureCount := 0 }
      else
        cb
  | State.closed => { cb with failureCount := 0 }
  | _ => cb

/-- Outcome of the wrapped function `fn` passed to `Call`. -/
inductive Outcome where
  | success
  | failure
deriving DecidableEq, Repr

/-- Result of one `Call` invocation: either rejected with the
circuit-open error (the wrapped function was not executed), or executed
with the given outcome. -/
inductive CallResult where
  | rejected
  | executed (o : Outcome)
deriving DecidableEq, Repr

/-- First half of `Call` (breaker.go lines 56-70): under the lock, an Open
breaker transitions to Half-Open when `now - lastFailureTime > timeout`,
otherwise the call is rejected.  Returns the breaker after the check and
whether the wrapped function may execute. -/
def callCheck (cb : CircuitBreaker) (now : Int) : CircuitBreaker × Bool :=
  if cb.state = State.opened then
    if now - cb.lastFailureTime > cb.timeout then
      (setState cb State.halfOpen now |> fun cb1 => { cb1 with successCount := 0 }, true)
    else
      (cb, false)
  else
    (cb, true)

/-- `Call` (breaker.go): the state check at time `checkNow`, then, when the
call proceeds, the outcome of `fn` is recorded at time `recNow`
(`onFailure` / `onSuccess`). -/
def Call (cb : CircuitBreaker) (checkNow recNow : Int) (o : Outcome) :
    CircuitBreaker × CallResult :=
  let chk := callCheck cb checkNow
  if chk.2 then
    match o with
    | Outcome.failure => (onFailure chk.1 recNow, CallResult.executed Outcome.failure)
    | Outcome.success => (onSuccess chk.1 recNow, CallResult.executed Outcome.success)
  else
    (chk.1, CallResult.rejected)

/-- `Reset` (breaker.go). -/
def Reset (cb : CircuitBreaker) (now : Int) : CircuitBreaker :=
  { cb with state := State.closed, failureCount := 0, successCount := 0,
            lastStateChange := now }

end circuitbreaker

namespace circuitbreaker

/-- A freshly constructed breaker is Closed. -/
theorem new_state_closed (mf t hs now : Int) : (New mf t hs now).state = State.closed := rfl

/-- In Closed, a failure that does not reach `maxFailures` keeps the
breaker Closed and increments the failure count. -/
theorem closed_failure_below (cb : CircuitBreaker) (cn rn : Int)
    (hs : cb.state = State.closed) (hlt : cb.failureCount + 1 < cb.maxFailures) :
    (Call cb cn rn Outcome.failure).1.state = State.closed ∧
    (Call cb cn rn Outcome.failure).1.failureCount = cb.failureCount + 1 := by
  have hge : ¬ (cb.failureCount + 1 ≥ cb.maxFailures) := by omega
  simp [Call, callCheck, hs, onFailure, setState, hge]

end circuitbreaker

namespace circuitbreaker

/-- In Closed, the failure that reaches `maxFailures` opens the circuit
and marks the failure time. -/
theorem closed_failure_reaches (cb : CircuitBreaker) (cn rn : Int)
    (hs : cb.state = State.closed) (hge : cb.failureCount + 1 ≥ cb.maxFailures) :
    (Call cb cn rn Outcome.failure).1.state = State.opened ∧
    (Call cb cn rn Outcome.failure).1.lastFailureTime = rn := by
  simp [Call, callCheck, hs, onFailure, setState, hge]

/-- While Open within the timeout, `Call` rejects and leaves the breaker
unchanged; the wrapped function is not executed. -/
theorem open_within_timeout_rejects (cb : CircuitBreaker) (cn rn : Int) (o : Outcome)
    (hs : cb.state = State.opened) (hle : cn - cb.lastFailureTime ≤ cb.timeout) :
    Call cb cn rn o = (cb, CallResult.rejected) := by
  have h : ¬ (cn - cb.lastFailureTime > cb.timeout) := by omega
  simp [Call, callCheck, hs, h]

/-- Once the timeout has elapsed, the next `Call` proceeds: the check
moves the breaker to Half-Open with the success count reset to 0, and the
wrapped function executes. -/
theorem open_after_timeout_proceeds (cb : CircuitBreaker) (cn rn : Int) (o : Outcome)
    (hs : cb.state = State.opened) (hgt : cn - cb.lastFailureTime > cb.timeout) :
    (callCheck cb cn).1.state = State.halfOpen ∧
    (callCheck cb cn).1.successCount = 0 ∧
    (Call cb cn rn o).2 = CallResult.executed o := by
  refine ⟨?_, ?_, ?_⟩ <;>
    cases o <;> simp [Call, callCheck, hs, hgt, setState]

/-- In Half-Open, any failure reopens the circuit. -/
theorem halfopen_failure_reopens (cb : CircuitBreaker) (cn rn : Int)
    (hs : cb.state = State.halfOpen) :
    (Call cb cn rn Outcome.failure).1.state = State.opened ∧
    (Call cb cn rn Outcome.failure).1.lastFailureTime = rn := by
  simp [Call, callCheck, hs, onFailure, setState]

/-- In Half-Open, the success that reaches `halfOpenSuccess` closes the
circuit and resets the failure count. -/
theorem halfopen_success_reaches (cb : CircuitBreaker) (cn rn : Int)
    (hs : cb.state = State.halfOpen) (hge : cb.successCount + 1 ≥ cb.halfOpenSuccess) :
    (Call cb cn rn Outcome.success).1.state = State.closed ∧
    (Call cb cn rn Outcome.success).1.failureCount = 0 := by
  simp [Call, callCheck, hs, onSuccess, setState, hge]

/-- In Half-Open, a success below `halfOpenSuccess` stays Half-Open and
increments the success count. -/
theorem halfopen_success_below (cb : CircuitBreaker) (cn rn : Int)
    (hs : cb.state = State.halfOpen) (hlt : cb.successCount + 1 < cb.halfOpenSuccess) :
    (Call cb cn rn Outcome.success).1.state = State.halfOpen ∧
    (Call cb cn rn Outcome.success).1.successCount = cb.successCount + 1 := by
  have h : ¬ (cb.successCount + 1 ≥ cb.halfOpenSuccess) := by omega
  simp [Call, callCheck, hs, onSuccess, setState, h]

/-- In Closed, a success resets the failure count and stays Closed. -/
theorem closed_success_resets (cb : CircuitBreaker) (cn rn : Int)
    (hs : cb.state = State.closed) :
    (Call cb cn rn Outcome.success).1.state = State.closed ∧
    (Call cb cn rn Outcome.success).1.failureCount = 0 := by
  simp [Call, callCheck, hs, onSuccess]

end circuitbreaker

namespace circuitbreaker

/-- C1 (amended): the per-route circuit breaker follows the state machine
for every sequence of `Call` invocations: it starts Closed; in Closed a
success resets the failure count and a failure below `maxFailures` only
increments it, while the `maxFailures`-th consecutive failure opens the
circuit; while Open with `now - lastFailureTime ≤ timeout` every call is
rejected without executing the wrapped function; once strictly more than
`timeout` has elapsed the next call proceeds in Half-Open with the success
count reset to 0; a failure in Half-Open reopens the circuit; and the
`halfOpenSuccess`-th success in Half-Open closes it with the failure count
reset to 0 (the success count is not cleared until the next entry into
Half-Open). -/
theorem C1_breaker_state_machine :
    (∀ mf t hs now, (New mf t hs now).state = State.closed) ∧
    (∀ cb cn rn, cb.state = State.closed → cb.failureCount + 1 < cb.maxFailures →
      (Call cb cn rn Outcome.failure).1.state = State.closed ∧
      (Call cb cn rn Outcome.failure).1.failureCount = cb.failureCount + 1) ∧
    (∀ cb cn rn, cb.state = State.closed → cb.failureCount + 1 ≥ cb.maxFailures →
      (Call cb cn rn Outcome.failure).1.state = State.opened ∧
      (Call cb cn rn Outcome.failure).1.lastFailureTime = rn) ∧
    (∀ cb cn rn o, cb.state = State.opened → cn - cb.lastFailureTime ≤ cb.timeout →
      Call cb cn rn o = (cb, CallResult.rejected)) ∧
    (∀ cb cn rn o, cb.state = State.opened → cn - cb.lastFailureTime > cb.timeout →
      (callCheck cb cn).1.state = State.halfOpen ∧
      (callCheck cb cn).1.successCount = 0 ∧
      (Call cb cn rn o).2 = CallResult.executed o) ∧
    (∀ cb cn rn, cb.state = State.halfOpen →
      (Call cb cn rn Outcome.failure).1.state = State.opened ∧
      (Call cb cn rn Outcome.failure).1.lastFailureTime = rn) ∧
    (∀ cb cn rn, cb.state = State.halfOpen → cb.successCount + 1 ≥ cb.halfOpenSuccess →
      (Call cb cn rn Outcome.success).1.state = State.closed ∧
      (Call cb cn rn Outcome.success).1.failureCount = 0) ∧
    (∀ cb cn rn, cb.state = State.halfOpen → cb.successCount + 1 < cb.halfOpenSuccess →
      (Call cb cn rn Outcome.success).1.state = State.halfOpen ∧
      (Call cb cn rn Outcome.success).1.successCount = cb.successCount + 1) ∧
    (∀ cb cn rn, cb.state = State.closed →
      (Call cb cn rn Outcome.success).1.state = State.closed ∧
      (Call cb cn rn Outcome.success).1.failureCount = 0) :=
  ⟨new_state_closed,
   closed_failure_below,
   closed_failure_reaches,
   open_within_timeout_rejects,
   open_after_timeout_proceeds,
   halfopen_failure_reopens,
   halfopen_success_reaches,
   halfopen_success_below,
   closed_success_resets⟩

/-- C1 witness: each hypothesis of `C1_breaker_state_machine` discharged
at a concrete breaker. -/
theorem C1_breaker_state_machine_witness :
    (New 5 30 1 0).state = State.closed ∧
    ((Call ⟨State.closed, 0, 0, 0, 0, 5, 30, 1⟩ 1 1 Outcome.failure).1.state = State.closed ∧
      (Call ⟨State.closed, 0, 0, 0, 0, 5, 30, 1⟩ 1 1 Outcome.failure).1.failureCount = 1) ∧
    ((Call ⟨State.closed, 4, 0, 0, 0, 5, 30, 1⟩ 2 2 Outcome.failure).1.state = State.opened ∧
      (Call ⟨State.closed, 4, 0, 0, 0, 5, 30, 1⟩ 2 2 Outcome.failure).1.lastFailureTime = 2) ∧
    (Call ⟨State.opened, 5, 0, 2, 2, 5, 30, 1⟩ 20 20 Outcome.success
      = (⟨State.opened, 5, 0, 2, 2, 5, 30, 1⟩, CallResult.rejected)) ∧
    ((callCheck ⟨State.opened, 5, 0, 2, 2, 5, 30, 1⟩ 40).1.state = State.halfOpen ∧
      (callCheck ⟨State.opened, 5, 0, 2, 2, 5, 30, 1⟩ 40).1.successCount = 0 ∧
      (Call ⟨State.opened, 5, 0, 2, 2, 5, 30, 1⟩ 40 40 Outcome.success).2
        = CallResult.executed Outcome.success) ∧
    ((Call ⟨State.halfOpen, 5, 0, 2, 40, 5, 30, 2⟩ 41 41 Outcome.failure).1.state = State.opened ∧
      (Call ⟨State.halfOpen, 5, 0, 2, 40, 5, 30, 2⟩ 41 41 Outcome.failure).1.lastFailureTime = 41) ∧
    ((Call ⟨State.halfOpen, 5, 1, 2, 40, 5, 30, 2⟩ 42 42 Outcome.success).1.state = State.closed ∧
      (Call ⟨State.halfOpen, 5, 1, 2, 40, 5, 30, 2⟩ 42 42 Outcome.success).1.failureCount = 0) ∧
    ((Call ⟨State.halfOpen, 5, 0, 2, 40, 5, 30, 2⟩ 42 42 Outcome.success).1.state = State.halfOpen ∧
      (Call ⟨State.halfOpen, 5, 0, 2, 40, 5, 30, 2⟩ 42 42 Outcome.success).1.successCount = 1) ∧
    ((Call ⟨State.closed, 3, 0, 0, 0, 5, 30, 1⟩ 7 7 Outcome.success).1.state = State.closed ∧
      (Call ⟨State.closed, 3, 0, 0, 0, 5, 30, 1⟩ 7 7 Outcome.success).1.failureCount = 0) :=
  ⟨C1_breaker_state_machine.1 5 30 1 0,
   C1_breaker_state_machine.2.1 _ 1 1 (by decide) (by decide),
   C1_breaker_state_machine.2.2.1 _ 2 2 (by decide) (by decide),
   C1_breaker_state_machine.2.2.2.1 _ 20 20 _ (by decide) (by decide),
   C1_breaker_state_machine.2.2.2.2.1 _ 40 40 _ (by decide) (by decide),
   C1_breaker_state_machine.2.2.2.2.2.1 _ 41 41 (by decide),
   C1_breaker_state_machine.2.2.2.2.2.2.1 _ 42 42 (by decide) (by decide),
   C1_breaker_state_machine.2.2.2.2.2.2.2.1 _ 42 42 (by decide) (by decide),
   C1_breaker_state_machine.2.2.2.2.2.2.2.2 _ 7 7 (by decide)⟩

/-- C1 counterexample to the claim as stated: with `MaxFailures = 1`,
`Timeout = 10`, `HalfOpenSuccess = 1`, a failure opens the circuit and,
after the timeout, the `halfOpenSuccess`-th success closes it again — but
the success counter is left at 1, so the transition to Closed does not
reset all counters as claimed. -/
theorem C1_counterexample :
    (Call (New 1 10 1 0) 0 0 Outcome.failure).1.state = State.opened ∧
    (Call (Call (New 1 10 1 0) 0 0 Outcome.failure).1 11 11 Outcome.success).2
      = CallResult.executed Outcome.success ∧
    (Call (Call (New 1 10 1 0) 0 0 Outcome.failure).1 11 11 Outcome.success).1.state
      = State.closed ∧
    ¬ (Call (Call (New 1 10 1 0) 0 0 Outcome.failure).1 11 11 Outcome.success).1.successCount
      = 0 := by
  decide

end circuitbreaker

namespace ratelimit

/-- Which concrete limiter a tier gets.  The repository implements all
three (`NewFixedWindow`, `NewSlidingWindowLimiter`, `NewTokenBucket`);
this type records the constructor chosen by the factory together with its
arguments. -/
inductive LimiterKind where
  | fixedWindow (limit : Nat) (windowSeconds : Nat)
  | tokenBucket (capacity : Nat) (refillRate : Nat)
  | slidingWindow (limit : Nat) (windowSeconds : Nat)
deriving DecidableEq, Repr

/-- `NewLimiter` (factory.go): switch on the algorithm label.  The Go
switch has cases only for "token_bucket" and "fixed_window"; everything
else falls to the default arm.  `limit / windowSeconds` is Go integer
division (windowSeconds is positive in every call site; the middleware
passes 60). -/
def NewLimiter (algorithm : String) (limit : Nat) (windowSeconds : Nat) : LimiterKind :=
  if algorithm = "token_bucket" then
    let refillRate := limit / windowSeconds
    let refillRate := if refillRate = 0 then 1 else refillRate
    LimiterKind.tokenBucket limit refillRate
  else if algorithm = "fixed_window" then
    LimiterKind.fixedWindow limit windowSeconds
  else
    LimiterKind.fixedWindow limit windowSeconds

/-- C2: the factory has no case for the "sliding_window" label: a tier
configured with `sliding_window` is handed the fixed-window limiter, not
the sliding-window log limiter the repository also implements.  This
contradicts the spec's algorithm selection (the code bug behind the
claim). -/
theorem C2_factory_sliding_window_is_fixed (limit windowSeconds : Nat) :
    NewLimiter "sliding_window" limit windowSeconds
      = LimiterKind.fixedWindow limit windowSeconds ∧
    ∀ l w, NewLimiter "sliding_window" limit windowSeconds
      ≠ LimiterKind.slidingWindow l w := by
  refine ⟨by rfl, fun l w => ?_⟩
  simp [NewLimiter]

end ratelimit

namespace ratelimit

/-- The slice of the shared store the fixed-window limiter touches:
`Incr`/`Get` counters and `Expire` TTLs.  `none` models an absent key. -/
structure FWStore where
  counters : String → Option Nat
  ttls : String → Option Nat

/-- A store with no keys. -/
def emptyStore : FWStore := ⟨fun _ => none, fun _ => none⟩

/-- The key `Allow` increments (fixed_window.go line 29):
`ratelimit:fixed:<subject>:<now/window>` with Go integer division of unix
seconds by the window size in seconds. -/
def fixedKey (subject : String) (now window : Nat) : String :=
  "ratelimit:fixed:" ++ subject ++ ":" ++ toString (now / window)

/-- The key `Remaining` reads (fixed_window.go line 45):
`ratelimit:<subject>:<now/window>` — note the missing `fixed:` segment. -/
def remainingKey (subject : String) (now window : Nat) : String :=
  "ratelimit:" ++ subject ++ ":" ++ toString (now / window)

/-- `FixedWindowLimiter.Allow` (fixed_window.go): atomically increment the
window's counter, set the TTL to the window size when this was the first
increment, and permit iff the post-increment count is at most the limit. -/
def fixedWindowAllow (limit window : Nat) (st : FWStore) (subject : String) (now : Nat) :
    FWStore × Bool :=
  let k := fixedKey subject now window
  let count := (st.counters k).getD 0 + 1
  let counters1 : String → Option Nat := fun x => if x = k then some count else st.counters x
  let ttls1 : String → Option Nat :=
    if count = 1 then fun x => if x = k then some window else st.ttls x else st.ttls
  (⟨counters1, ttls1⟩, decide (count ≤ limit))

/-- `FixedWindowLimiter.Remaining` (fixed_window.go): read the counter
under `remainingKey`; a missing key yields the full limit, otherwise
`limit - count` clamped below at 0 (Nat subtraction clamps exactly as the
Go code does). -/
def fixedWindowRemaining (limit window : Nat) (st : FWStore) (subject : String) (now : Nat) :
    Nat :=
  match st.counters (remainingKey subject now window) with
  | none => limit
  | some count => limit - count

/-- `FixedWindowLimiter.Reset` (fixed_window.go): the start of the next
boundary-aligned window, `(now/window + 1) * window`. -/
def fixedWindowReset (window now : Nat) : Nat :=
  (now / window + 1) * window

/-- Run a list of `(subject, now)` requests through `Allow`, threading the
store, and return the requests that were permitted. -/
def fixedWindowPermitted (limit window : Nat) (st : FWStore) :
    List (String × Nat) → List (String × Nat)
  | [] => []
  | (s, now) :: rest =>
      let r := fixedWindowAllow limit window st s now
      let tail := fixedWindowPermitted limit window r.1 rest
      if r.2 then (s, now) :: tail else tail

end ratelimit

namespace ratelimit

/-- `Allow` stores the incremented count under `fixedKey`. -/
theorem fixedWindowAllow_counters_same (limit window : Nat) (st : FWStore)
    (s : String) (now : Nat) :
    (fixedWindowAllow limit window st s now).1.counters (fixedKey s now window)
      = some ((st.counters (fixedKey s now window)).getD 0 + 1) := by
  simp [fixedWindowAllow]

/-- `Allow` leaves every other counter untouched. -/
theorem fixedWindowAllow_counters_other (limit window : Nat) (st : FWStore)
    (s : String) (now : Nat) (x : String) (hx : x ≠ fixedKey s now window) :
    (fixedWindowAllow limit window st s now).1.counters x = st.counters x := by
  simp [fixedWindowAllow, hx]

/-- The permit decision of `Allow` is `count ≤ limit` on the
post-increment count. -/
theorem fixedWindowAllow_snd (limit window : Nat) (st : FWStore) (s : String) (now : Nat) :
    (fixedWindowAllow limit window st s now).2
      = decide ((st.counters (fixedKey s now window)).getD 0 + 1 ≤ limit) := by
  simp [fixedWindowAllow]

/-- On the first increment of a window the TTL is set to the window size. -/
theorem fixedWindowAllow_ttl_first (limit window : Nat) (st : FWStore)
    (s : String) (now : Nat)
    (h : (st.counters (fixedKey s now window)).getD 0 + 1 = 1) :
    (fixedWindowAllow limit window st s now).1.ttls (fixedKey s now window) = some window := by
  simp [fixedWindowAllow, h]

/-- On any later increment the TTLs are untouched. -/
theorem fixedWindowAllow_ttl_rest (limit window : Nat) (st : FWStore)
    (s : String) (now : Nat)
    (h : (st.counters (fixedKey s now window)).getD 0 + 1 ≠ 1) :
    (fixedWindowAllow limit window st s now).1.ttls = st.ttls := by
  simp [fixedWindowAllow, h]

/-- Across any request sequence, the permits whose key is `k` are bounded
by `limit` minus the counter already stored under `k`. -/
theorem fixedWindowPermitted_key_bound (limit window : Nat) :
    ∀ (reqs : List (String × Nat)) (st : FWStore) (k : String),
      ((fixedWindowPermitted limit window st reqs).countP
          (fun p => decide (fixedKey p.1 p.2 window = k)))
        ≤ limit - (st.counters k).getD 0 := by
  intro reqs
  induction reqs with
  | nil => intro st k; simp [fixedWindowPermitted]
  | cons hd rest ih =>
      intro st k
      obtain ⟨s, now⟩ := hd
      have htail := ih (fixedWindowAllow limit window st s now).1 k
      by_cases hk : fixedKey s now window = k
      · have hcnt : ((fixedWindowAllow limit window st s now).1.counters k).getD 0
            = (st.counters k).getD 0 + 1 := by
          rw [← hk, fixedWindowAllow_counters_same]
          rfl
        rw [hcnt] at htail
        by_cases hle : (st.counters k).getD 0 + 1 ≤ limit
        · have hsnd : (fixedWindowAllow limit window st s now).2 = true := by
            rw [fixedWindowAllow_snd, hk]; simpa using hle
          simp [fixedWindowPermitted, hsnd, hk]
          omega
        · have hsnd : (fixedWindowAllow limit window st s now).2 = false := by
            rw [fixedWindowAllow_snd, hk]; simpa using hle
          simp [fixedWindowPermitted, hsnd]
          omega
      · have hcnt : ((fixedWindowAllow limit window st s now).1.counters k).getD 0
            = (st.counters k).getD 0 := by
          rw [fixedWindowAllow_counters_other]
          exact fun h => hk h.symm
        rw [hcnt] at htail
        cases hperm : (fixedWindowAllow limit window st s now).2 <;>
          · simp [fixedWindowPermitted, hperm, hk]
            omega

/-- The next-window boundary returned by `Reset` is strictly after `now`,
at most one window away, and boundary-aligned. -/
theorem fixedWindowReset_bounds (now window : Nat) (hw : 0 < window) :
    now < fixedWindowReset window now ∧
    fixedWindowReset window now ≤ now + window ∧
    fixedWindowReset window now % window = 0 := by
  have hdm := Nat.div_add_mod now window
  have hmod : now % window < window := Nat.mod_lt _ hw
  have hmul : now / window * window ≤ now := Nat.div_mul_le_self now window
  refine ⟨?_, ?_, Nat.mul_mod_left _ _⟩
  · unfold fixedWindowReset
    nlinarith [hdm, hmod]
  · unfold fixedWindowReset
    nlinarith [hmul]

end ratelimit

namespace ratelimit

/-- C3: fixed-window `Allow` increments exactly the counter under
`ratelimit:fixed:<subject>:<now/window>`, sets that key's TTL to the
window size exactly when the post-increment count is 1, and permits iff
the post-increment count is at most the limit; consequently at most
`limit` requests of a subject are permitted inside one boundary-aligned
window, and `Reset` returns the next window boundary (strictly after
`now`, at most one window away, boundary-aligned). -/
theorem C3_fixed_window_allow :
    (∀ limit window st subject now,
      (fixedWindowAllow limit window st subject now).1.counters (fixedKey subject now window)
        = some ((st.counters (fixedKey subject now window)).getD 0 + 1) ∧
      (∀ x, x ≠ fixedKey subject now window →
        (fixedWindowAllow limit window st subject now).1.counters x = st.counters x) ∧
      ((st.counters (fixedKey subject now window)).getD 0 + 1 = 1 →
        (fixedWindowAllow limit window st subject now).1.ttls (fixedKey subject now window)
          = some window) ∧
      ((st.counters (fixedKey subject now window)).getD 0 + 1 ≠ 1 →
        (fixedWindowAllow limit window st subject now).1.ttls = st.ttls) ∧
      ((fixedWindowAllow limit window st subject now).2 = true ↔
        (st.counters (fixedKey subject now window)).getD 0 + 1 ≤ limit)) ∧
    (∀ limit window subject w reqs,
      ((fixedWindowPermitted limit window emptyStore reqs).countP
          (fun p => decide (p.1 = subject ∧ p.2 / window = w))) ≤ limit) ∧
    (∀ now window, 0 < window →
      now < fixedWindowReset window now ∧
      fixedWindowReset window now ≤ now + window ∧
      fixedWindowReset window now % window = 0) := by
  refine ⟨?_, ?_, fun now window hw => fixedWindowReset_bounds now window hw⟩
  · intro limit window st subject now
    exact ⟨fixedWindowAllow_counters_same limit window st subject now,
      fun x hx => fixedWindowAllow_counters_other limit window st subject now x hx,
      fixedWindowAllow_ttl_first limit window st subject now,
      fixedWindowAllow_ttl_rest limit window st subject now,
      by rw [fixedWindowAllow_snd]; simp⟩
  · intro limit window subject w reqs
    have hmono : ((fixedWindowPermitted limit window emptyStore reqs).countP
          (fun p => decide (p.1 = subject ∧ p.2 / window = w)))
        ≤ ((fixedWindowPermitted limit window emptyStore reqs).countP
          (fun p => decide (fixedKey p.1 p.2 window
            = "ratelimit:fixed:" ++ subject ++ ":" ++ toString w))) := by
      apply List.countP_mono_left
      intro x _ hx
      simp only [decide_eq_true_eq] at hx ⊢
      rw [fixedKey, hx.1, hx.2]
    have hb := fixedWindowPermitted_key_bound limit window reqs emptyStore
      ("ratelimit:fixed:" ++ subject ++ ":" ++ toString w)
    simp only [emptyStore, Option.getD_none, Nat.sub_zero] at hb
    exact le_trans hmono hb

/-- C3 witness: the conjuncts of `C3_fixed_window_allow` at concrete
inputs, each hypothesis discharged by evaluation. -/
theorem C3_fixed_window_allow_witness :
    (fixedWindowAllow 60 60 emptyStore "alice" 5).1.counters (fixedKey "alice" 5 60)
      = some 1 ∧
    (fixedWindowAllow 60 60 emptyStore "alice" 5).1.counters "other" = none ∧
    (fixedWindowAllow 60 60 emptyStore "alice" 5).1.ttls (fixedKey "alice" 5 60) = some 60 ∧
    (fixedWindowAllow 60 60 emptyStore "alice" 5).2 = true ∧
    ((fixedWindowPermitted 1 10 emptyStore [("a", 0), ("a", 1), ("a", 2)]).countP
      (fun p => decide (p.1 = "a" ∧ p.2 / 10 = 0))) ≤ 1 ∧
    5 < fixedWindowReset 60 5 ∧ fixedWindowReset 60 5 ≤ 5 + 60 ∧
    fixedWindowReset 60 5 % 60 = 0 := by
  have h := C3_fixed_window_allow
  have h1 := h.1 60 60 emptyStore "alice" 5
  have h2 := h.2.1 1 10 "a" 0 [("a", 0), ("a", 1), ("a", 2)]
  have h3 := h.2.2 5 60 (by decide)
  exact ⟨by simpa using h1.1,
    by rw [h1.2.1 "other" (by decide)]; rfl,
    h1.2.2.1 (by decide),
    (h1.2.2.2.2).mpr (by decide),
    h2, h3.1, h3.2.1, h3.2.2⟩

/-- C7: `Remaining` reads `ratelimit:<subject>:<win>` while `Allow`
increments `ratelimit:fixed:<subject>:<win>` — a different key.  After one
permitted request by "alice" at time 0 with limit 60, `Remaining` still
reports 60 (a missing key yields the full limit), not 59 as the claim
requires. -/
theorem C7_remaining_reads_wrong_key :
    remainingKey "alice" 0 60 ≠ fixedKey "alice" 0 60 ∧
    (fixedWindowAllow 60 60 emptyStore "alice" 0).2 = true ∧
    fixedWindowRemaining 60 60 (fixedWindowAllow 60 60 emptyStore "alice" 0).1 "alice" 0
      = 60 ∧
    ¬ fixedWindowRemaining 60 60 (fixedWindowAllow 60 60 emptyStore "alice" 0).1 "alice" 0
      = 59 := by
  decide

end ratelimit

namespace ratelimit

/-- `SlidingWindowLimiter.Allow` (sliding window log, per subject key
`ratelimit:sliding:<subject>`).  The sorted set is modelled as the list of
stored scores (nanosecond timestamps); members are the timestamps
themselves, so adding an already-present timestamp leaves the set
unchanged (Redis `ZADD` keyed by member).  The pipeline removes scores in
`[0, now - window]` (`ZRemRangeByScore "0" windowStart`), counts the rest
(`ZCard`), and admits iff the count is strictly below the limit, adding an
entry scored `now` on admission. -/
def slidingAllow (limit : Nat) (window : Int) (entries : List Int) (now : Int) :
    List Int × Bool :=
  let survivors := entries.filter (fun e => decide (¬ (0 ≤ e ∧ e ≤ now - window)))
  if survivors.length < limit then
    (if now ∈ survivors then survivors else survivors ++ [now], true)
  else
    (survivors, false)

/-- The survivors as the claim words them: only entries strictly older
than `now - window` are removed (used to compare the claim against the
code, which also removes the boundary score `now - window`). -/
def slidingSurvivorsClaim (entries : List Int) (now window : Int) : List Int :=
  entries.filter (fun e => decide (¬ (e < now - window)))

/-- Thread a list of call timestamps through `slidingAllow`; returns the
final stored set and the admitted timestamps. -/
def slidingRun (limit : Nat) (window : Int) : List Int → List Int → List Int × List Int
  | entries, [] => (entries, [])
  | entries, now :: rest =>
      let r := slidingAllow limit window entries now
      let res := slidingRun limit window r.1 rest
      (res.1, if r.2 then now :: res.2 else res.2)

/-- Every admitted timestamp is one of the call timestamps. -/
theorem slidingRun_admitted_mem (limit : Nat) (window : Int) :
    ∀ (times entries : List Int) (a : Int),
      a ∈ (slidingRun limit window entries times).2 → a ∈ times := by
  intro times
  induction times with
  | nil => intro entries a ha; simp [slidingRun] at ha
  | cons now rest ih =>
      intro entries a ha
      simp only [slidingRun] at ha
      by_cases hadm : (slidingAllow limit window entries now).2 = true
      · rw [if_pos hadm] at ha
        rcases List.mem_cons.mp ha with h | h
        · exact h ▸ List.mem_cons_self _ _
        · exact List.mem_cons_of_mem _ (ih _ a h)
      · rw [if_neg hadm] at ha
        exact List.mem_cons_of_mem _ (ih _ a ha)

end ratelimit

namespace ratelimit

/-- Removing the scores in `[0, now - window]` does not remove any entry
lying in a later window `(t - window, t]` with `t ≥ now`. -/
theorem sliding_filter_keep (entries : List Int) (now t window : Int) (ht : now ≤ t) :
    ((entries.filter (fun e => decide (¬ (0 ≤ e ∧ e ≤ now - window)))).filter
        (fun e => decide (0 ≤ e ∧ t - window < e ∧ e ≤ t)))
      = entries.filter (fun e => decide (0 ≤ e ∧ t - window < e ∧ e ≤ t)) := by
  rw [List.filter_filter]
  apply List.filter_congr
  intro e _
  by_cases hp : (0 ≤ e ∧ t - window < e ∧ e ≤ t)
  · have hk : ¬ (0 ≤ e ∧ e ≤ now - window) := by omega
    simp [hp, hk]
    omega
  · simp [hp]

/-- Unfolding of `slidingRun` on a cons cell. -/
theorem slidingRun_cons (limit : Nat) (window : Int) (entries : List Int)
    (now : Int) (rest : List Int) :
    slidingRun limit window entries (now :: rest)
      = ((slidingRun limit window (slidingAllow limit window entries now).1 rest).1,
         if (slidingAllow limit window entries now).2 then
           now :: (slidingRun limit window (slidingAllow limit window entries now).1 rest).2
         else
           (slidingRun limit window (slidingAllow limit window entries now).1 rest).2) := rfl

/-- Core sliding-window bound: with strictly increasing non-negative call
timestamps, starting from a set whose entries all predate the calls, the
admitted timestamps lying in any interval `(t - window, t]` are at most
`limit` minus the initial entries in that interval. -/
theorem slidingRun_bound (limit : Nat) (window : Int) :
    ∀ (times entries : List Int),
      times.Pairwise (fun a b => a < b) →
      (∀ ts ∈ times, 0 ≤ ts) →
      (∀ e ∈ entries, ∀ ts ∈ times, e < ts) →
      ∀ t : Int,
        ((slidingRun limit window entries times).2.countP
            (fun a => decide (t - window < a ∧ a ≤ t)))
          ≤ limit - (entries.filter
              (fun e => decide (0 ≤ e ∧ t - window < e ∧ e ≤ t))).length := by
  intro times
  induction times with
  | nil => intro entries _ _ _ t; simp [slidingRun]
  | cons now rest ih =>
      intro entries hpw hpos hfresh t
      have hlt_rest : ∀ x ∈ rest, now < x := (List.pairwise_cons.mp hpw).1
      have hpw_rest := (List.pairwise_cons.mp hpw).2
      have hpos_now : 0 ≤ now := hpos now (List.mem_cons_self _ _)
      have hpos_rest : ∀ ts ∈ rest, 0 ≤ ts := fun ts h => hpos ts (List.mem_cons_of_mem _ h)
      have hfresh_now : ∀ e ∈ entries, e < now :=
        fun e he => hfresh e he now (List.mem_cons_self _ _)
      have hSsub : ∀ e ∈ entries.filter (fun e => decide (¬ (0 ≤ e ∧ e ≤ now - window))),
          e ∈ entries := fun e he => List.mem_of_mem_filter he
      have hnowS : now ∉ entries.filter (fun e => decide (¬ (0 ≤ e ∧ e ≤ now - window))) :=
        fun h => absurd (hfresh_now now (hSsub _ h)) (lt_irrefl now)
      have hzero : ∀ entries1 : List Int, ¬ (now ≤ t) →
          ((slidingRun limit window entries1 rest).2.countP
            (fun a => decide (t - window < a ∧ a ≤ t))) = 0 := by
        intro entries1 hnt
        apply List.countP_eq_zero.mpr
        intro a ha
        have hmem : a ∈ rest := slidingRun_admitted_mem limit window rest entries1 a ha
        have hgt : now < a := hlt_rest a hmem
        simp only [decide_eq_true_eq]
        omega
      by_cases hadm : (entries.filter (fun e => decide (¬ (0 ≤ e ∧ e ≤ now - window)))).length
          < limit
      · have hr : slidingAllow limit window entries now
            = ((entries.filter (fun e => decide (¬ (0 ≤ e ∧ e ≤ now - window)))) ++ [now],
               true) := by
          unfold slidingAllow
          rw [if_pos hadm, if_neg hnowS]
        have hrun2 : (slidingRun limit window entries (now :: rest)).2
            = now :: (slidingRun limit window
                ((entries.filter (fun e => decide (¬ (0 ≤ e ∧ e ≤ now - window)))) ++ [now])
                rest).2 := by
          rw [slidingRun_cons, hr]
          simp
        have hfresh2 : ∀ e ∈ (entries.filter
              (fun e => decide (¬ (0 ≤ e ∧ e ≤ now - window)))) ++ [now],
            ∀ ts ∈ rest, e < ts := by
          intro e he ts hts
          rcases List.mem_append.mp he with h | h
          · exact hfresh e (hSsub _ h) ts (List.mem_cons_of_mem _ hts)
          · have he2 : e = now := by simpa using h
            exact he2 ▸ hlt_rest ts hts
        have IH := ih _ hpw_rest hpos_rest hfresh2 t
        rw [hrun2, List.countP_cons]
        by_cases ht : now ≤ t
        · have hfl : (((entries.filter (fun e => decide (¬ (0 ≤ e ∧ e ≤ now - window))))
                ++ [now]).filter
                  (fun e => decide (0 ≤ e ∧ t - window < e ∧ e ≤ t))).length
              = (entries.filter
                  (fun e => decide (0 ≤ e ∧ t - window < e ∧ e ≤ t))).length
                + (if (0 ≤ now ∧ t - window < now ∧ now ≤ t) then 1 else 0) := by
            rw [List.filter_append, List.length_append,
              sliding_filter_keep entries now t window ht]
            congr 1
            by_cases hin : (0 ≤ now ∧ t - window < now ∧ now ≤ t) <;> simp [hin]
          have hfle : (entries.filter
                (fun e => decide (0 ≤ e ∧ t - window < e ∧ e ≤ t))).length
              ≤ (entries.filter (fun e => decide (¬ (0 ≤ e ∧ e ≤ now - window)))).length := by
            rw [← sliding_filter_keep entries now t window ht]
            exact List.length_filter_le _ _
          rw [hfl] at IH
          by_cases hin : (t - window < now ∧ now ≤ t)
          · have hin3 : (0 ≤ now ∧ t - window < now ∧ now ≤ t) := ⟨hpos_now, hin.1, hin.2⟩
            rw [if_pos hin3] at IH
            rw [if_pos (show decide (t - window < now ∧ now ≤ t) = true by simp [hin])]
            omega
          · have hin3 : ¬ (0 ≤ now ∧ t - window < now ∧ now ≤ t) := fun h => hin ⟨h.2.1, h.2.2⟩
            rw [if_neg hin3] at IH
            rw [if_neg (show ¬ decide (t - window < now ∧ now ≤ t) = true by simp [hin])]
            omega
        · rw [hzero _ ht]
          have hnot : ¬ (t - window < now ∧ now ≤ t) := fun h => ht h.2
          simp [hnot]
      · have hr : slidingAllow limit window entries now
            = ((entries.filter (fun e => decide (¬ (0 ≤ e ∧ e ≤ now - window)))), false) := by
          unfold slidingAllow
          rw [if_neg hadm]
        have hrun2 : (slidingRun limit window entries (now :: rest)).2
            = (slidingRun limit window
                (entries.filter (fun e => decide (¬ (0 ≤ e ∧ e ≤ now - window)))) rest).2 := by
          rw [slidingRun_cons, hr]
          simp
        have hfresh2 : ∀ e ∈ entries.filter (fun e => decide (¬ (0 ≤ e ∧ e ≤ now - window))),
            ∀ ts ∈ rest, e < ts :=
          fun e he ts hts => hfresh e (hSsub _ he) ts (List.mem_cons_of_mem _ hts)
        have IH := ih _ hpw_rest hpos_rest hfresh2 t
        rw [hrun2]
        by_cases ht : now ≤ t
        · rw [sliding_filter_keep entries now t window ht] at IH
          exact IH
        · rw [hzero _ ht]
          exact Nat.zero_le _

/-- C4 (amended): sliding-window `Allow` removes every stored entry with
score in `[0, now - window]` (boundary inclusive), admits iff the count of
surviving entries is strictly below the limit, and inserts an entry scored
`now` on admission; consequently, starting from an empty log, for calls
with strictly increasing non-negative timestamps the number of admitted
requests with timestamp in `(t - window, t]` never exceeds the limit. -/
theorem C4_sliding_window_log :
    (∀ limit window entries now,
      ((slidingAllow limit window entries now).2 = true ↔
        (entries.filter (fun e => decide (¬ (0 ≤ e ∧ e ≤ now - window)))).length < limit) ∧
      ((slidingAllow limit window entries now).2 = true →
        now ∈ (slidingAllow limit window entries now).1) ∧
      ((slidingAllow limit window entries now).2 = false →
        (slidingAllow limit window entries now).1
          = entries.filter (fun e => decide (¬ (0 ≤ e ∧ e ≤ now - window))))) ∧
    (∀ (limit : Nat) (window : Int) (times : List Int) (t : Int),
      times.Pairwise (fun a b => a < b) →
      (∀ ts ∈ times, 0 ≤ ts) →
      ((slidingRun limit window [] times).2.countP
        (fun a => decide (t - window < a ∧ a ≤ t))) ≤ limit) := by
  constructor
  · intro limit window entries now
    refine ⟨?_, ?_, ?_⟩
    · simp only [slidingAllow]
      by_cases h : (entries.filter (fun e => decide (¬ (0 ≤ e ∧ e ≤ now - window)))).length
          < limit
      · rw [if_pos h]
        exact iff_of_true rfl h
      · rw [if_neg h]
        exact iff_of_false (by simp) h
    · intro h2
      simp only [slidingAllow] at h2 ⊢
      by_cases h : (entries.filter (fun e => decide (¬ (0 ≤ e ∧ e ≤ now - window)))).length
          < limit
      · rw [if_pos h]
        show now ∈ (if now ∈ entries.filter (fun e => decide (¬ (0 ≤ e ∧ e ≤ now - window)))
          then entries.filter (fun e => decide (¬ (0 ≤ e ∧ e ≤ now - window)))
          else entries.filter (fun e => decide (¬ (0 ≤ e ∧ e ≤ now - window))) ++ [now])
        by_cases hm : now ∈ entries.filter (fun e => decide (¬ (0 ≤ e ∧ e ≤ now - window)))
        · rw [if_pos hm]
          exact hm
        · rw [if_neg hm]
          exact List.mem_append_right _ (by simp)
      · rw [if_neg h] at h2
        exact absurd h2 (by simp)
    · intro h2
      simp only [slidingAllow] at h2 ⊢
      by_cases h : (entries.filter (fun e => decide (¬ (0 ≤ e ∧ e ≤ now - window)))).length
          < limit
      · rw [if_pos h] at h2
        exact absurd h2 (by simp)
      · rw [if_neg h]
  · intro limit window times t hpw hpos
    have hb := slidingRun_bound limit window times [] hpw hpos (by intro e he; simp at he) t
    simpa using hb

/-- C4 witness: the conjuncts of `C4_sliding_window_log` at concrete
inputs, each hypothesis discharged by evaluation. -/
theorem C4_sliding_window_log_witness :
    (slidingAllow 1 10 ([] : List Int) 0).2 = true ∧
    (5 : Int) ∈ (slidingAllow 2 10 [0] 5).1 ∧
    (slidingAllow 1 10 [0] 5).1 = [0] ∧
    ((slidingRun 1 10 [] [0, 1, 12]).2.countP
      (fun a => decide ((12 : Int) - 10 < a ∧ a ≤ 12))) ≤ 1 := by
  have h := C4_sliding_window_log
  exact ⟨(h.1 1 10 [] 0).1.mpr (by decide),
    (h.1 2 10 [0] 5).2.1 (by decide),
    (h.1 1 10 [0] 5).2.2 (by decide),
    h.2 1 10 [0, 1, 12] 12 (by decide) (by decide)⟩

/-- C4 counterexample to the claim as stated: with one stored entry at
score 0, window 10 and a call at `now = 10`, the code removes the
boundary entry (score `= now - window`) and admits, even though the
survivors under the claim's strictly-older-only removal number 1, which
is not strictly below the limit 1 — so admission is not equivalent to the
claimed count test. -/
theorem C4_counterexample :
    (slidingAllow 1 10 [0] 10).2 = true ∧
    ¬ ((slidingSurvivorsClaim [0] 10 10).length < 1) := by
  decide

end ratelimit

namespace ratelimit

/-- The serialized record under `ratelimit:bucket:<subject>`
(token_bucket.go `bucketState`): a token count and the last refill time.
Go float64 arithmetic is modelled by exact rationals; times are in
seconds. -/
structure bucketState where
  tokens : Rat
  lastRefill : Rat
deriving DecidableEq, Repr

/-- The refill step shared by `Allow` and `Remaining`
(token_bucket.go lines 55-58 and 93-96):
`min(tokens + (now - lastRefill) * refillRate, capacity)`. -/
def refillTokens (capacity refillRate : Nat) (s : bucketState) (now : Rat) : Rat :=
  min (s.tokens + (now - s.lastRefill) * (refillRate : Rat)) (capacity : Rat)

/-- `TokenBucket.Allow` (token_bucket.go): a missing record initializes a
full bucket stamped `now`; then tokens are refilled by the elapsed time,
and if at least one token is available, one token is consumed and the
request is permitted.  The updated state is written back in both
branches. -/
def tokenBucketAllow (capacity refillRate : Nat) (st : Option bucketState) (now : Rat) :
    bucketState × Bool :=
  let st0 := match st with
    | none => { tokens := (capacity : Rat), lastRefill := now }
    | some s => s
  let tokens := refillTokens capacity refillRate st0 now
  if 1 ≤ tokens then
    ({ tokens := tokens - 1, lastRefill := now }, true)
  else
    ({ tokens := tokens, lastRefill := now }, false)

/-- `TokenBucket.Remaining` (token_bucket.go): a missing record reports
the full capacity; otherwise the refilled token count truncated to an
integer (`int(currentTokens)`; truncation equals the floor on the
non-negative values the invariant provides). -/
def tokenBucketRemaining (capacity refillRate : Nat) (st : Option bucketState) (now : Rat) :
    Int :=
  match st with
  | none => (capacity : Int)
  | some s => Int.floor (refillTokens capacity refillRate s now)

/-- Run `n` `Allow` calls back to back at the same instant `now` and
count the permits. -/
def tokenBucketRunSame (capacity refillRate : Nat) (now : Rat) :
    Nat → Option bucketState → Option bucketState × Nat
  | 0, st => (st, 0)
  | n + 1, st =>
      let r := tokenBucketAllow capacity refillRate st now
      let res := tokenBucketRunSame capacity refillRate now n (some r.1)
      (res.1, res.2 + if r.2 then 1 else 0)

end ratelimit

namespace ratelimit

/-- Permit decision and state update of `Allow` on an existing record:
permit iff the refilled count is at least 1, in which case exactly one
token is consumed; the stored refill stamp becomes `now`. -/
theorem tokenBucketAllow_some_spec (capacity refillRate : Nat) (s : bucketState) (now : Rat) :
    ((tokenBucketAllow capacity refillRate (some s) now).2 = true ↔
      1 ≤ refillTokens capacity refillRate s now) ∧
    ((tokenBucketAllow capacity refillRate (some s) now).2 = true →
      (tokenBucketAllow capacity refillRate (some s) now).1.tokens
        = refillTokens capacity refillRate s now - 1) ∧
    ((tokenBucketAllow capacity refillRate (some s) now).2 = false →
      (tokenBucketAllow capacity refillRate (some s) now).1.tokens
        = refillTokens capacity refillRate s now) ∧
    (tokenBucketAllow capacity refillRate (some s) now).1.lastRefill = now := by
  by_cases h : 1 ≤ refillTokens capacity refillRate s now <;>
    simp [tokenBucketAllow, h]

/-- The refilled count never exceeds the capacity, and with one more
token for a permit the total still fits in the capacity. -/
theorem tokenBucketAllow_tokens_add_le (capacity refillRate : Nat)
    (st : Option bucketState) (now : Rat) :
    (tokenBucketAllow capacity refillRate st now).1.tokens
      + (if (tokenBucketAllow capacity refillRate st now).2 then (1 : Rat) else 0)
    ≤ (capacity : Rat) := by
  rcases st with _ | s <;>
  · simp only [tokenBucketAllow]
    split <;> simp [refillTokens, min_le_right]

/-- The stored token count stays within `[0, capacity]` across `Allow`,
for any record satisfying the invariant and a non-decreasing clock. -/
theorem tokenBucketAllow_range (capacity refillRate : Nat) (s : bucketState) (now : Rat)
    (h0 : 0 ≤ s.tokens) (hl : s.lastRefill ≤ now) :
    0 ≤ (tokenBucketAllow capacity refillRate (some s) now).1.tokens ∧
    (tokenBucketAllow capacity refillRate (some s) now).1.tokens ≤ (capacity : Rat) := by
  have hre : 0 ≤ refillTokens capacity refillRate s now := by
    unfold refillTokens
    have helap : 0 ≤ (now - s.lastRefill) * (refillRate : Rat) :=
      mul_nonneg (by linarith) (by positivity)
    have : (0 : Rat) ≤ s.tokens + (now - s.lastRefill) * (refillRate : Rat) := by linarith
    exact le_min this (by positivity)
  have hcap : refillTokens capacity refillRate s now ≤ (capacity : Rat) :=
    min_le_right _ _
  refine ⟨?_, ?_⟩ <;> by_cases h : 1 ≤ refillTokens capacity refillRate s now <;>
    simp [tokenBucketAllow, h] <;> linarith

/-- `Remaining` on an existing record is between 0 and the capacity. -/
theorem tokenBucketRemaining_range (capacity refillRate : Nat) (s : bucketState) (now : Rat)
    (h0 : 0 ≤ s.tokens) (hl : s.lastRefill ≤ now) :
    0 ≤ tokenBucketRemaining capacity refillRate (some s) now ∧
    tokenBucketRemaining capacity refillRate (some s) now ≤ (capacity : Int) := by
  have hre : 0 ≤ refillTokens capacity refillRate s now := by
    unfold refillTokens
    have helap : 0 ≤ (now - s.lastRefill) * (refillRate : Rat) :=
      mul_nonneg (by linarith) (by positivity)
    have : (0 : Rat) ≤ s.tokens + (now - s.lastRefill) * (refillRate : Rat) := by linarith
    exact le_min this (by positivity)
  have hcap : refillTokens capacity refillRate s now ≤ (capacity : Rat) :=
    min_le_right _ _
  constructor
  · exact Int.le_floor.mpr (by exact_mod_cast hre)
  · calc Int.floor (refillTokens capacity refillRate s now)
        ≤ Int.floor ((capacity : Rat)) := Int.floor_le_floor hcap
      _ = (capacity : Int) := by exact_mod_cast Int.floor_natCast capacity

/-- Back-to-back calls at one instant: the permits are bounded by the
initial token count. -/
theorem tokenBucketRunSame_le (capacity refillRate : Nat) (now : Rat) :
    ∀ (n : Nat) (s : bucketState), s.lastRefill = now → 0 ≤ s.tokens →
      s.tokens ≤ (capacity : Rat) →
      (((tokenBucketRunSame capacity refillRate now n (some s)).2 : Rat)) ≤ s.tokens := by
  intro n
  induction n with
  | zero => intro s _ h0 _; simpa [tokenBucketRunSame] using h0
  | succ n ih =>
      intro s hl h0 hc
      have hfill : refillTokens capacity refillRate s now = s.tokens := by
        unfold refillTokens
        rw [hl, sub_self, zero_mul, add_zero]
        exact min_eq_left hc
      by_cases h : 1 ≤ refillTokens capacity refillRate s now
      · rw [hfill] at h
        have hr : tokenBucketAllow capacity refillRate (some s) now
            = ({ tokens := s.tokens - 1, lastRefill := now }, true) := by
          simp [tokenBucketAllow, hfill, h]
        have hrec := ih { tokens := s.tokens - 1, lastRefill := now } rfl
          (show (0 : Rat) ≤ s.tokens - 1 by linarith)
          (show s.tokens - 1 ≤ (capacity : Rat) by linarith)
        simp only [tokenBucketRunSame, hr] at hrec ⊢
        simp at hrec ⊢
        linarith
      · rw [hfill] at h
        have hr : tokenBucketAllow capacity refillRate (some s) now
            = ({ tokens := s.tokens, lastRefill := now }, false) := by
          simp [tokenBucketAllow, hfill, h]
        have hrec := ih { tokens := s.tokens, lastRefill := now } rfl h0 hc
        simp only [tokenBucketRunSame, hr] at hrec ⊢
        simp at hrec ⊢
        linarith

end ratelimit

namespace ratelimit

/-- `Allow` always stamps the written-back record with `now`. -/
theorem tokenBucketAllow_lastRefill (capacity refillRate : Nat)
    (st : Option bucketState) (now : Rat) :
    (tokenBucketAllow capacity refillRate st now).1.lastRefill = now := by
  rcases st with _ | s <;>
  · simp only [tokenBucketAllow]
    split <;> rfl

/-- `Allow` keeps the stored token count non-negative, for a missing
record or one satisfying the invariant. -/
theorem tokenBucketAllow_nonneg (capacity refillRate : Nat)
    (st : Option bucketState) (now : Rat)
    (hwf : ∀ s, st = some s → 0 ≤ s.tokens ∧ s.lastRefill ≤ now) :
    0 ≤ (tokenBucketAllow capacity refillRate st now).1.tokens := by
  rcases st with _ | s
  · have hfill : refillTokens capacity refillRate
        { tokens := (capacity : Rat), lastRefill := now } now = (capacity : Rat) := by
      unfold refillTokens
      simp
    by_cases h : 1 ≤ refillTokens capacity refillRate
        { tokens := (capacity : Rat), lastRefill := now } now
    · have hr : tokenBucketAllow capacity refillRate none now
          = ({ tokens := refillTokens capacity refillRate
                { tokens := (capacity : Rat), lastRefill := now } now - 1,
               lastRefill := now }, true) := by
        simp [tokenBucketAllow, h]
      rw [hr]
      show 0 ≤ refillTokens capacity refillRate
        { tokens := (capacity : Rat), lastRefill := now } now - 1
      linarith
    · have hr : tokenBucketAllow capacity refillRate none now
          = ({ tokens := refillTokens capacity refillRate
                { tokens := (capacity : Rat), lastRefill := now } now,
               lastRefill := now }, false) := by
        simp [tokenBucketAllow, h]
      rw [hr]
      show 0 ≤ refillTokens capacity refillRate
        { tokens := (capacity : Rat), lastRefill := now } now
      rw [hfill]
      positivity
  · exact (tokenBucketAllow_range capacity refillRate s now
      (hwf s rfl).1 (hwf s rfl).2).1

/-- C5 burst bound: from any store state satisfying the invariant, `n`
back-to-back calls at one instant permit at most `capacity` requests. -/
theorem tokenBucket_burst (capacity refillRate : Nat) (now : Rat) :
    ∀ (n : Nat) (st : Option bucketState),
      (∀ s, st = some s → 0 ≤ s.tokens ∧ s.lastRefill ≤ now) →
      (tokenBucketRunSame capacity refillRate now n st).2 ≤ capacity := by
  intro n st hwf
  cases n with
  | zero => simp [tokenBucketRunSame]
  | succ n =>
      have hadd := tokenBucketAllow_tokens_add_le capacity refillRate st now
      have hlast := tokenBucketAllow_lastRefill capacity refillRate st now
      have h0 := tokenBucketAllow_nonneg capacity refillRate st now hwf
      have hcap : (tokenBucketAllow capacity refillRate st now).1.tokens ≤ (capacity : Rat) := by
        by_cases hb : (tokenBucketAllow capacity refillRate st now).2 = true <;>
          simp [hb] at hadd <;> linarith
      have hrun := tokenBucketRunSame_le capacity refillRate now n
        (tokenBucketAllow capacity refillRate st now).1 hlast h0 hcap
      show (tokenBucketRunSame capacity refillRate now n
          (some (tokenBucketAllow capacity refillRate st now).1)).2
        + (if (tokenBucketAllow capacity refillRate st now).2 = true then 1 else 0)
        ≤ capacity
      by_cases hb : (tokenBucketAllow capacity refillRate st now).2 = true
      · rw [if_pos hb]
        rw [if_pos hb] at hadd
        have hq : ((tokenBucketRunSame capacity refillRate now n
            (some (tokenBucketAllow capacity refillRate st now).1)).2 : Rat) + 1
            ≤ (capacity : Rat) := by linarith
        exact_mod_cast hq
      · rw [if_neg hb]
        rw [if_neg hb] at hadd
        have hq : ((tokenBucketRunSame capacity refillRate now n
            (some (tokenBucketAllow capacity refillRate st now).1)).2 : Rat)
            ≤ (capacity : Rat) := by linarith
        have hn : (tokenBucketRunSame capacity refillRate now n
            (some (tokenBucketAllow capacity refillRate st now).1)).2 ≤ capacity := by
          exact_mod_cast hq
        simpa using hn

end ratelimit

namespace ratelimit

/-- C5: token-bucket `Allow` refills to
`min(capacity, tokens + elapsed * rate)`, permits iff the refilled count
is at least 1 and then consumes exactly one token; the stored count stays
in `[0, capacity]`, `Remaining` reports a value in `[0, capacity]`, and
without intervening refill time at most `capacity` requests are
permitted. -/
theorem C5_token_bucket :
    (∀ (capacity refillRate : Nat) (s : bucketState) (now : Rat),
      refillTokens capacity refillRate s now
        = min (s.tokens + (now - s.lastRefill) * (refillRate : Rat)) (capacity : Rat) ∧
      ((tokenBucketAllow capacity refillRate (some s) now).2 = true ↔
        1 ≤ refillTokens capacity refillRate s now) ∧
      ((tokenBucketAllow capacity refillRate (some s) now).2 = true →
        (tokenBucketAllow capacity refillRate (some s) now).1.tokens
          = refillTokens capacity refillRate s now - 1) ∧
      ((tokenBucketAllow capacity refillRate (some s) now).2 = false →
        (tokenBucketAllow capacity refillRate (some s) now).1.tokens
          = refillTokens capacity refillRate s now) ∧
      (tokenBucketAllow capacity refillRate (some s) now).1.lastRefill = now) ∧
    (∀ (capacity refillRate : Nat) (s : bucketState) (now : Rat),
      0 ≤ s.tokens → s.lastRefill ≤ now →
      0 ≤ (tokenBucketAllow capacity refillRate (some s) now).1.tokens ∧
      (tokenBucketAllow capacity refillRate (some s) now).1.tokens ≤ (capacity : Rat)) ∧
    (∀ (capacity refillRate : Nat) (s : bucketState) (now : Rat),
      0 ≤ s.tokens → s.lastRefill ≤ now →
      0 ≤ tokenBucketRemaining capacity refillRate (some s) now ∧
      tokenBucketRemaining capacity refillRate (some s) now ≤ (capacity : Int)) ∧
    (∀ (capacity refillRate : Nat) (now : Rat) (n : Nat) (st : Option bucketState),
      (∀ s, st = some s → 0 ≤ s.tokens ∧ s.lastRefill ≤ now) →
      (tokenBucketRunSame capacity refillRate now n st).2 ≤ capacity) := by
  refine ⟨?_, ?_, ?_, ?_⟩
  · intro capacity refillRate s now
    exact ⟨rfl, tokenBucketAllow_some_spec capacity refillRate s now⟩
  · intro capacity refillRate s now h0 hl
    exact tokenBucketAllow_range capacity refillRate s now h0 hl
  · intro capacity refillRate s now h0 hl
    exact tokenBucketRemaining_range capacity refillRate s now h0 hl
  · intro capacity refillRate now n st hwf
    exact tokenBucket_burst capacity refillRate now n st hwf

/-- C5 witness: the conjuncts of `C5_token_bucket` at a concrete bucket
(capacity 2, rate 1, stored record with 1 token refilled at time 0),
each hypothesis discharged by evaluation. -/
theorem C5_token_bucket_witness :
    (tokenBucketAllow 2 1 (some { tokens := 1, lastRefill := 0 }) 0).2 = true ∧
    (tokenBucketAllow 2 1 (some { tokens := 1, lastRefill := 0 }) 0).1.tokens
      = refillTokens 2 1 { tokens := 1, lastRefill := 0 } 0 - 1 ∧
    (tokenBucketAllow 2 1 (some { tokens := 1, lastRefill := 0 }) 0).1.lastRefill = 0 ∧
    (0 ≤ (tokenBucketAllow 2 1 (some { tokens := 1, lastRefill := 0 }) 0).1.tokens ∧
      (tokenBucketAllow 2 1 (some { tokens := 1, lastRefill := 0 }) 0).1.tokens ≤ (2 : Rat)) ∧
    (0 ≤ tokenBucketRemaining 2 1 (some { tokens := 1, lastRefill := 0 }) 0 ∧
      tokenBucketRemaining 2 1 (some { tokens := 1, lastRefill := 0 }) 0 ≤ (2 : Int)) ∧
    (tokenBucketRunSame 2 1 0 5 (some { tokens := 1, lastRefill := 0 })).2 ≤ 2 := by
  have h := C5_token_bucket
  have hre : refillTokens 2 1 { tokens := 1, lastRefill := 0 } 0 = 1 := by
    unfold refillTokens
    rw [min_def]
    norm_num
  refine ⟨(h.1 2 1 { tokens := 1, lastRefill := 0 } 0).2.1.mpr (by rw [hre]),
    ?_, (h.1 2 1 { tokens := 1, lastRefill := 0 } 0).2.2.2.2,
    h.2.1 2 1 { tokens := 1, lastRefill := 0 } 0 (by norm_num) (by norm_num),
    h.2.2.1 2 1 { tokens := 1, lastRefill := 0 } 0 (by norm_num) (by norm_num),
    h.2.2.2 2 1 0 5 (some { tokens := 1, lastRefill := 0 })
      (fun s hs => by injection hs with h2; rw [← h2]; exact ⟨by norm_num, by norm_num⟩)⟩
  exact (h.1 2 1 { tokens := 1, lastRefill := 0 } 0).2.2.1
    ((h.1 2 1 { tokens := 1, lastRefill := 0 } 0).2.1.mpr (by rw [hre]))

end ratelimit

namespace middleware

/-- Body of the 429 response produced by `RateLimitWithTier`
(ratelimit.go lines 86-91): the gin.H with the four fields
`error`, `tier`, `limit`, `retry_after` (the latter is
`resetTime.Unix()`, epoch seconds). -/
structure RLBody where
  error : String
  tier : String
  limit : Nat
  retry_after : Int
deriving DecidableEq, Repr

/-- Outcome of the rate-limit middleware on one request. -/
inductive RLResponse where
  | serverError (body : String)
  | tooManyRequests (retryAfter : Int) (body : RLBody)
  | proceed
deriving DecidableEq, Repr

/-- HTTP status written by the middleware, if it answers the request. -/
def RLResponse.status : RLResponse → Option Nat
  | RLResponse.serverError _ => some 500
  | RLResponse.tooManyRequests _ _ => some 429
  | RLResponse.proceed => none

/-- Whether the middleware aborts the chain (`c.Abort()`). -/
def RLResponse.aborted : RLResponse → Bool
  | RLResponse.proceed => false
  | _ => true

/-- The decision logic of `RateLimitWithTier` (ratelimit.go lines 56-96)
after `limiter.Allow` returns: a store error yields 500 and aborts; a
denial yields 429 with `Retry-After` equal to the seconds until
`resetTime` clamped below at 0, and the JSON body
`{error, tier, limit, retry_after}`; otherwise the chain proceeds.
Times are in epoch seconds (`resetTime.Unix()`); `retryAfter` models
`int(time.Until(resetTime).Seconds())`, whose truncation at second
granularity is the plain difference. -/
def rateLimitCheck (allowResult : Except Unit Bool) (tier : String) (limit : Nat)
    (resetUnix now : Int) : RLResponse :=
  match allowResult with
  | Except.error _ => RLResponse.serverError "Rate limit check failed"
  | Except.ok allowed =>
      if allowed then
        RLResponse.proceed
      else
        let retryAfter := resetUnix - now
        let retryAfter := if retryAfter < 0 then 0 else retryAfter
        RLResponse.tooManyRequests retryAfter
          { error := "Rate limit exceeded", tier := tier, limit := limit,
            retry_after := resetUnix }

end middleware

namespace middleware

/-- C6: if the limiter's `Allow` errors, the middleware answers 500 and
aborts — never an implicit permit; on a denial it answers 429 whose
`Retry-After` equals the seconds until `resetAt` clamped below at 0
(hence at most `window` whenever `resetAt ≤ now + window`, which the
fixed-window `Reset` guarantees), with a body carrying the fields
`error`, `tier`, `limit` and `retry_after`. -/
theorem C6_rate_limit_middleware :
    (∀ tier limit reset now,
      rateLimitCheck (Except.error ()) tier limit reset now
        = RLResponse.serverError "Rate limit check failed" ∧
      (rateLimitCheck (Except.error ()) tier limit reset now).status = some 500 ∧
      (rateLimitCheck (Except.error ()) tier limit reset now).aborted = true) ∧
    (∀ tier limit reset now,
      rateLimitCheck (Except.ok false) tier limit reset now
        = RLResponse.tooManyRequests (if reset - now < 0 then 0 else reset - now)
            { error := "Rate limit exceeded", tier := tier, limit := limit,
              retry_after := reset } ∧
      (rateLimitCheck (Except.ok false) tier limit reset now).status = some 429 ∧
      (rateLimitCheck (Except.ok false) tier limit reset now).aborted = true) ∧
    (∀ tier limit (reset now window : Int) ra body,
      rateLimitCheck (Except.ok false) tier limit reset now
        = RLResponse.tooManyRequests ra body →
      0 ≤ ra ∧ (0 ≤ window → reset ≤ now + window → ra ≤ window)) ∧
    (∀ tier limit (now window : Nat), 0 < window →
      ∀ ra body, rateLimitCheck (Except.ok false) tier limit
          ((ratelimit.fixedWindowReset window now : Nat) : Int) ((now : Nat) : Int)
        = RLResponse.tooManyRequests ra body →
      0 ≤ ra ∧ ra ≤ (window : Int)) := by
  have hdenied : ∀ tier limit reset now,
      rateLimitCheck (Except.ok false) tier limit reset now
        = RLResponse.tooManyRequests (if reset - now < 0 then 0 else reset - now)
            { error := "Rate limit exceeded", tier := tier, limit := limit,
              retry_after := reset } := by
    intro tier limit reset now
    rfl
  have hbound : ∀ tier limit (reset now window : Int) ra body,
      rateLimitCheck (Except.ok false) tier limit reset now
        = RLResponse.tooManyRequests ra body →
      0 ≤ ra ∧ (0 ≤ window → reset ≤ now + window → ra ≤ window) := by
    intro tier limit reset now window ra body h
    rw [hdenied] at h
    have hra : ra = if reset - now < 0 then 0 else reset - now :=
      (RLResponse.tooManyRequests.injEq _ _ _ _).mp h.symm |>.1
    constructor
    · rw [hra]
      split <;> omega
    · intro hw hle
      rw [hra]
      split <;> omega
  refine ⟨fun tier limit reset now => ⟨rfl, rfl, rfl⟩,
    fun tier limit reset now => ⟨hdenied tier limit reset now, rfl, rfl⟩,
    hbound,
    ?_⟩
  intro tier limit now window hw ra body h
  have hb := ratelimit.fixedWindowReset_bounds now window hw
  have hle : ((ratelimit.fixedWindowReset window now : Nat) : Int)
      ≤ ((now : Nat) : Int) + (window : Int) := by
    exact_mod_cast hb.2.1
  have := hbound tier limit _ _ (window : Int) ra body h
  exact ⟨this.1, this.2 (by positivity) hle⟩

/-- C6 witness: the conjuncts of `C6_rate_limit_middleware` at a concrete
request (tier "basic", limit 60, reset epoch 60, now epoch 5), each
hypothesis discharged by evaluation. -/
theorem C6_rate_limit_middleware_witness :
    (rateLimitCheck (Except.error ()) "basic" 60 60 5).status = some 500 ∧
    (rateLimitCheck (Except.error ()) "basic" 60 60 5).aborted = true ∧
    (rateLimitCheck (Except.ok false) "basic" 60 60 5).status = some 429 ∧
    rateLimitCheck (Except.ok false) "basic" 60 60 5
      = RLResponse.tooManyRequests 55
          { error := "Rate limit exceeded", tier := "basic", limit := 60,
            retry_after := 60 } ∧
    ((0 : Int) ≤ 55 ∧ (55 : Int) ≤ 60) ∧
    ((0 : Int) ≤ 55 ∧ (55 : Int) ≤ 60) := by
  have h := C6_rate_limit_middleware
  refine ⟨(h.1 "basic" 60 60 5).2.1, (h.1 "basic" 60 60 5).2.2,
    (h.2.1 "basic" 60 60 5).2.1, by simpa using (h.2.1 "basic" 60 60 5).1, ?_, ?_⟩
  · have hx := h.2.2.1 "basic" 60 60 5 60 55
      { error := "Rate limit exceeded", tier := "basic", limit := 60, retry_after := 60 }
      (by decide)
    exact ⟨hx.1, hx.2 (by decide) (by decide)⟩
  · have hx := h.2.2.2 "basic" 60 5 60 (by decide) 55
      { error := "Rate limit exceeded", tier := "basic", limit := 60, retry_after := 60 }
      (by decide)
    exact hx

end middleware

namespace loadbalancer

/-- The Go `int(^uint(0) >> 1)` sentinel in `LeastConnections.Next`
(least_connections.go line 26): the maximum 64-bit signed integer. -/
def maxConnInt : Int := 2 ^ 63 - 1

/-- `LeastConnections.Next` (least_connections.go): scan the candidates
keeping the target with the smallest active-connection count (a missing
map key reads as 0, modelled by the total function `conns`); if nothing
was picked, fall back to the first candidate. -/
def lcNext (conns : String → Int) (targets : List String) : String :=
  match targets with
  | [] => ""
  | t0 :: rest =>
      let sel := ((t0 :: rest).foldl
        (fun (acc : String × Int) tg => if conns tg < acc.2 then (tg, conns tg) else acc)
        ("", maxConnInt)).1
      if sel = "" then t0 else sel

/-- `LeastConnections.Increment` (least_connections.go lines 45-49). -/
def lcIncrement (conns : String → Int) (target : String) : String → Int :=
  fun x => if x = target then conns target + 1 else conns x

/-- `LeastConnections.Decrement` (least_connections.go lines 52-59): only
decrements when the count is positive. -/
def lcDecrement (conns : String → Int) (target : String) : String → Int :=
  if conns target > 0 then
    fun x => if x = target then conns target - 1 else conns x
  else
    conns

/-- One balancer operation, as performed by the dispatcher. -/
inductive LCOp where
  | inc (target : String)
  | dec (target : String)

/-- Apply one operation to the connection map. -/
def lcApply (conns : String → Int) : LCOp → String → Int
  | LCOp.inc target => lcIncrement conns target
  | LCOp.dec target => lcDecrement conns target

/-- Run a sequence of operations from the initial (empty, all-zero)
connection map of `NewLeastConnections`. -/
def lcRun (ops : List LCOp) : String → Int :=
  ops.foldl lcApply (fun _ => 0)

end loadbalancer

namespace loadbalancer

/-- One operation keeps every count non-negative. -/
theorem lcApply_nonneg (conns : String → Int) (h : ∀ x, 0 ≤ conns x) (op : LCOp)
    (x : String) : 0 ≤ lcApply conns op x := by
  cases op with
  | inc target =>
      simp only [lcApply, lcIncrement]
      split
      · linarith [h target]
      · exact h x
  | dec target =>
      simp only [lcApply, lcDecrement]
      split
      · show 0 ≤ if x = target then conns target - 1 else conns x
        split
        · omega
        · exact h x
      · exact h x

/-- Folding operations preserves non-negativity of all counts. -/
theorem lcFold_nonneg :
    ∀ (ops : List LCOp) (conns : String → Int), (∀ x, 0 ≤ conns x) →
      ∀ x, 0 ≤ (ops.foldl lcApply conns) x := by
  intro ops
  induction ops with
  | nil => intro conns h x; exact h x
  | cons op rest ih =>
      intro conns h x
      exact ih (lcApply conns op) (lcApply_nonneg conns h op) x

/-- C10: every per-target count of the least-connections balancer stays
non-negative across any sequence of `Increment`/`Decrement` operations
from the initial empty map; `Decrement` of a target at count 0 (including
a never-incremented target) is a no-op rather than going negative, and
`Increment` adds exactly one. -/
theorem C10_least_connections_nonneg :
    (∀ (ops : List LCOp) (x : String), 0 ≤ lcRun ops x) ∧
    (∀ (conns : String → Int) (target : String),
      conns target = 0 → lcDecrement conns target = conns) ∧
    (∀ (conns : String → Int) (target x : String),
      0 ≤ conns x → 0 ≤ lcDecrement conns target x) ∧
    (∀ (conns : String → Int) (target : String),
      lcIncrement conns target target = conns target + 1) := by
  refine ⟨?_, ?_, ?_, ?_⟩
  · intro ops x
    exact lcFold_nonneg ops (fun _ => 0) (fun _ => le_refl 0) x
  · intro conns target h
    unfold lcDecrement
    rw [if_neg (by omega)]
  · intro conns target x h
    unfold lcDecrement
    split
    · show 0 ≤ if x = target then conns target - 1 else conns x
      split
      · omega
      · exact h
    · exact h
  · intro conns target
    simp [lcIncrement]

/-- C10 witness: the conjuncts of `C10_least_connections_nonneg` at
concrete inputs, each hypothesis discharged by evaluation. -/
theorem C10_least_connections_nonneg_witness :
    (0 : Int) ≤ lcRun [LCOp.dec "a", LCOp.inc "a", LCOp.dec "a", LCOp.dec "a"] "a" ∧
    lcDecrement (fun _ => 0) "a" = (fun _ => 0) ∧
    (0 : Int) ≤ lcDecrement (fun _ => 0) "a" "b" ∧
    lcIncrement (fun _ => 0) "a" "a" = 1 := by
  have h := C10_least_connections_nonneg
  exact ⟨h.1 [LCOp.dec "a", LCOp.inc "a", LCOp.dec "a", LCOp.dec "a"] "a",
    h.2.1 (fun _ => 0) "a" rfl,
    h.2.2.1 (fun _ => 0) "a" "b" (le_refl 0),
    by rw [h.2.2.2 (fun _ => 0) "a"]; norm_num⟩

/-- Fold invariant for `lcNext`: the selection is the initial accumulator
or one of the scanned candidates. -/
theorem lcNext_fold_mem (conns : String → Int) :
    ∀ (l : List String) (acc : String × Int),
      (l.foldl (fun (acc : String × Int) tg =>
        if conns tg < acc.2 then (tg, conns tg) else acc) acc).1 = acc.1 ∨
      (l.foldl (fun (acc : String × Int) tg =>
        if conns tg < acc.2 then (tg, conns tg) else acc) acc).1 ∈ l := by
  intro l
  induction l with
  | nil => intro acc; exact Or.inl rfl
  | cons x xs ih =>
      intro acc
      rw [List.foldl_cons]
      by_cases hc : conns x < acc.2
      · rw [if_pos hc]
        rcases ih (x, conns x) with h | h
        · refine Or.inr ?_
          rw [h]
          exact List.mem_cons_self _ _
        · exact Or.inr (List.mem_cons_of_mem _ h)
      · rw [if_neg hc]
        rcases ih acc with h | h
        · exact Or.inl h
        · exact Or.inr (List.mem_cons_of_mem _ h)

/-- `LeastConnections.Next` always returns one of its candidates when the
candidate list is non-empty. -/
theorem lcNext_mem (conns : String → Int) :
    ∀ (targets : List String), targets ≠ [] → lcNext conns targets ∈ targets := by
  intro targets hne
  match targets with
  | [] => exact absurd rfl hne
  | t0 :: rest =>
      show (if ((t0 :: rest).foldl
          (fun (acc : String × Int) tg => if conns tg < acc.2 then (tg, conns tg) else acc)
          ("", maxConnInt)).1 = "" then t0
        else ((t0 :: rest).foldl
          (fun (acc : String × Int) tg => if conns tg < acc.2 then (tg, conns tg) else acc)
          ("", maxConnInt)).1) ∈ t0 :: rest
      rcases lcNext_fold_mem conns (t0 :: rest) ("", maxConnInt) with h | h
      · rw [h]
        simp
      · by_cases hs : ((t0 :: rest).foldl
            (fun (acc : String × Int) tg => if conns tg < acc.2 then (tg, conns tg) else acc)
            ("", maxConnInt)).1 = ""
        · rw [if_pos hs]
          exact List.mem_cons_self _ _
        · rw [if_neg hs]
          exact h

end loadbalancer

namespace proxy

/-- How `Proxy.Handle` (proxy.go lines 93-185) answers one request. -/
inductive HandleResult where
  | noHealthy
  | emptyTarget
  | missingProxy
  | circuitOpen
  | forwarded (target : String)
deriving DecidableEq, Repr

/-- The `X-Backend-Server` response header, set (to the selected target)
only when the wrapped proxy call actually executes. -/
def HandleResult.backendHeader : HandleResult → Option String
  | HandleResult.forwarded t => some t
  | _ => none

/-- Status written by `Handle` itself (503 on every non-forwarding path;
a forwarded request's status comes from the upstream). -/
def HandleResult.status : HandleResult → Option Nat
  | HandleResult.forwarded _ => none
  | _ => some 503

/-- `Proxy.Handle` (proxy.go): take the healthy subset from the health
checker at dispatch time, answer 503 when it is empty, otherwise select a
target with the load-balancer strategy (`next`), 503 when the selection is
empty or has no reverse proxy, and run the proxy call through the
per-route circuit breaker; the upstream status `backendStatus ≥ 500`
counts as a breaker failure, anything else as a success. -/
def Handle (healthy : List String) (next : List String → String)
    (proxyTargets : List String) (cb : circuitbreaker.CircuitBreaker)
    (checkNow recNow : Int) (backendStatus : Nat) :
    HandleResult × circuitbreaker.CircuitBreaker :=
  if healthy = [] then (HandleResult.noHealthy, cb)
  else if next healthy = "" then (HandleResult.emptyTarget, cb)
  else if next healthy ∈ proxyTargets then
    match (circuitbreaker.Call cb checkNow recNow
        (if backendStatus ≥ 500 then circuitbreaker.Outcome.failure
         else circuitbreaker.Outcome.success)).2 with
    | circuitbreaker.CallResult.rejected =>
        (HandleResult.circuitOpen,
         (circuitbreaker.Call cb checkNow recNow
           (if backendStatus ≥ 500 then circuitbreaker.Outcome.failure
            else circuitbreaker.Outcome.success)).1)
    | circuitbreaker.CallResult.executed _ =>
        (HandleResult.forwarded (next healthy),
         (circuitbreaker.Call cb checkNow recNow
           (if backendStatus ≥ 500 then circuitbreaker.Outcome.failure
            else circuitbreaker.Outcome.success)).1)
  else (HandleResult.missingProxy, cb)

end proxy

namespace proxy

/-- The backend header is set exactly on the forwarding result. -/
theorem backendHeader_eq_some (r : HandleResult) (t : String)
    (h : r.backendHeader = some t) : r = HandleResult.forwarded t := by
  cases r <;> simp [HandleResult.backendHeader] at h
  simp [h]

/-- A forwarding result names a member of the healthy subset, provided
the strategy picks among its candidates (or signals failure with ""). -/
theorem Handle_forwarded_mem (healthy : List String) (next : List String → String)
    (proxyTargets : List String) (cb : circuitbreaker.CircuitBreaker)
    (checkNow recNow : Int) (backendStatus : Nat) (t : String)
    (hmem : ∀ l, l ≠ [] → next l = "" ∨ next l ∈ l)
    (h : (Handle healthy next proxyTargets cb checkNow recNow backendStatus).1
      = HandleResult.forwarded t) : t ∈ healthy := by
  unfold Handle at h
  by_cases hh : healthy = []
  · rw [if_pos hh] at h
    exact absurd h (by simp)
  · rw [if_neg hh] at h
    by_cases hs : next healthy = ""
    · rw [if_pos hs] at h
      exact absurd h (by simp)
    · rw [if_neg hs] at h
      by_cases hp : next healthy ∈ proxyTargets
      · rw [if_pos hp] at h
        rcases hcall : (circuitbreaker.Call cb checkNow recNow
            (if backendStatus ≥ 500 then circuitbreaker.Outcome.failure
             else circuitbreaker.Outcome.success)).2 with _ | o
        · rw [hcall] at h
          exact absurd h (by simp)
        · rw [hcall] at h
          simp only [Prod.fst] at h
          have ht : next healthy = t := by
            have := (HandleResult.forwarded.injEq _ _).mp h
            exact this
          rcases hmem healthy hh with h1 | h1
          · exact absurd h1 hs
          · exact ht ▸ h1
      · rw [if_neg hp] at h
        exact absurd h (by simp)

end proxy

namespace proxy

/-- C8: with an empty healthy subset `Handle` answers 503 without
selecting a target; otherwise anything it forwards — equivalently, any
request whose `X-Backend-Server` header is set — goes to a member of the
healthy subset taken from the health checker at dispatch time, for any
strategy that picks among its candidates; the least-connections strategy
is such a strategy. -/
theorem C8_health_exclusion :
    (∀ next proxyTargets cb checkNow recNow backendStatus,
      (Handle [] next proxyTargets cb checkNow recNow backendStatus).1
        = HandleResult.noHealthy ∧
      (Handle [] next proxyTargets cb checkNow recNow backendStatus).1.status
        = some 503) ∧
    (∀ healthy next proxyTargets cb checkNow recNow backendStatus t,
      (∀ l, l ≠ [] → next l = "" ∨ next l ∈ l) →
      ((Handle healthy next proxyTargets cb checkNow recNow backendStatus).1.backendHeader
          = some t → t ∈ healthy) ∧
      ((Handle healthy next proxyTargets cb checkNow recNow backendStatus).1
          = HandleResult.forwarded t → t ∈ healthy)) ∧
    (∀ (conns : String → Int) (targets : List String), targets ≠ [] →
      loadbalancer.lcNext conns targets ∈ targets) := by
  refine ⟨?_, ?_, fun conns targets h => loadbalancer.lcNext_mem conns targets h⟩
  · intro next proxyTargets cb checkNow recNow backendStatus
    exact ⟨by simp [Handle], by simp [Handle, HandleResult.status]⟩
  · intro healthy next proxyTargets cb checkNow recNow backendStatus t hmem
    refine ⟨fun h => ?_, fun h =>
      Handle_forwarded_mem healthy next proxyTargets cb checkNow recNow backendStatus t
        hmem h⟩
    exact Handle_forwarded_mem healthy next proxyTargets cb checkNow recNow backendStatus t
      hmem (backendHeader_eq_some _ t h)

/-- C8 witness: the conjuncts of `C8_health_exclusion` at a concrete
dispatch (two healthy targets, least-connections with all counts zero, a
Closed breaker, upstream status 200), each hypothesis discharged by
evaluation. -/
theorem C8_health_exclusion_witness :
    (Handle [] (loadbalancer.lcNext (fun _ => 0)) ["a", "b"]
        { state := circuitbreaker.State.closed, failureCount := 0, successCount := 0,
          lastFailureTime := 0, lastStateChange := 0, maxFailures := 5, timeout := 30,
          halfOpenSuccess := 1 } 0 0 200).1 = HandleResult.noHealthy ∧
    "a" ∈ ["a", "b"] ∧
    loadbalancer.lcNext (fun _ => 0) ["a"] ∈ ["a"] := by
  have h := C8_health_exclusion
  refine ⟨(h.1 (loadbalancer.lcNext (fun _ => 0)) ["a", "b"] _ 0 0 200).1, ?_,
    h.2.2 (fun _ => 0) ["a"] (by decide)⟩
  exact (h.2.1 ["a", "b"] (loadbalancer.lcNext (fun _ => 0)) ["a", "b"]
      { state := circuitbreaker.State.closed, failureCount := 0, successCount := 0,
        lastFailureTime := 0, lastStateChange := 0, maxFailures := 5, timeout := 30,
        halfOpenSuccess := 1 } 0 0 200 "a"
      (fun l hl => Or.inr (loadbalancer.lcNext_mem (fun _ => 0) l hl))).1
    (by decide)

end proxy

namespace service

/-- `models.APIKey` restricted to the fields `Validate` and the claims
touch (the UUID is kept as an opaque string). -/
structure APIKey where
  id : String
  keyHash : String
  tier : String
  isActive : Bool
deriving DecidableEq, Repr

/-- A value stored in the credential cache: the empty-string marker
written by `invalidateCache` (treated as a miss by `Validate`'s
`cached != ""` test), or a serialized record. -/
inductive CacheVal where
  | emptyStr
  | record (k : APIKey)
deriving DecidableEq, Repr

/-- The cache key `apikey:cache:<hash>` (apikey.go line 69). -/
def cacheKeyOf (hash : String) : String := "apikey:cache:" ++ hash

/-- `APIKeyRepository.FindByHash` (repository/apikey.go lines 25-36): the
durable registry lookup, `WHERE key_hash = ? AND is_active = true`; a
missing row is a clean `nil` result. -/
def FindByHash (rows : List APIKey) (hash : String) : Option APIKey :=
  rows.find? (fun r => r.keyHash == hash && r.isActive)

/-- Result of `APIKeyService.Validate`: the resolved credential, the
cache after the call, and the TTL of a write-back if one happened
(seconds; `5*time.Minute` is 300). -/
structure ValidateResult where
  apiKey : Option APIKey
  cache : String → Option CacheVal
  writeTTL : Option Nat

/-- `APIKeyService.Validate` (service/apikey.go lines 64-95): hash the
presented key (the SHA-256 hex digest is an opaque function parameter),
consult the cache under `apikey:cache:<hash>`; a hit returns the cached
record; otherwise the durable registry is consulted and a hit is written
back to the cache with a 5-minute TTL. -/
def Validate (sha256hex : String → String) (cache : String → Option CacheVal)
    (rows : List APIKey) (key : String) : ValidateResult :=
  match cache (cacheKeyOf (sha256hex key)) with
  | some (CacheVal.record k) => { apiKey := some k, cache := cache, writeTTL := none }
  | _ =>
      match FindByHash rows (sha256hex key) with
      | none => { apiKey := none, cache := cache, writeTTL := none }
      | some k =>
          { apiKey := some k,
            cache := fun x => if x = cacheKeyOf (sha256hex key)
                              then some (CacheVal.record k) else cache x,
            writeTTL := some 300 }

end service

namespace middleware

/-- Outcome of the `APIKeyValidator` middleware (unnamed middleware file
lines 64-96): 401 with abort, or proceed (optionally authenticated). -/
inductive AuthResult where
  | unauthorized
  | next (k : Option service.APIKey)
deriving Repr

/-- `APIKeyValidator`: a missing `X-API-Key` header (gin returns "")
proceeds unauthenticated; a presented key is trimmed and validated, and a
null resolution is answered 401 (a store error also lands in the 401
branch of the Go code; the pure model covers the error-free paths). -/
def APIKeyValidator (header : String) (sha256hex : String → String)
    (cache : String → Option service.CacheVal) (rows : List service.APIKey) :
    AuthResult :=
  if header = "" then AuthResult.next none
  else
    match (service.Validate sha256hex cache rows header.trim).apiKey with
    | none => AuthResult.unauthorized
    | some k => AuthResult.next (some k)

end middleware

namespace service

/-- The durable lookup only ever returns records whose active flag is
set (the `is_active = true` condition of the SQL query). -/
theorem FindByHash_active (rows : List APIKey) (h : String) (k : APIKey)
    (hf : FindByHash rows h = some k) : k.isActive = true := by
  have hp := List.find?_some hf
  simp only [Bool.and_eq_true, beq_iff_eq] at hp
  exact hp.2

/-- C9: `Validate` consults the cache under `apikey:cache:<hash of the
presented secret>`, writes a durable-registry hit back with a 5-minute
(300 s) TTL, and never resolves an inactive credential: the registry
lookup filters on the active flag, so when every stored row for the hash
is inactive (and the cache holds no record for it) the result is null;
cached records are only ever written from active registry rows.  At the
request path, an absent `X-API-Key` header proceeds unauthenticated and a
key that resolves to null is answered 401. -/
theorem C9_credential_validation :
    (∀ (hash : String → String) (cache : String → Option CacheVal) (rows : List APIKey)
        (key : String) (k : APIKey),
      cache (cacheKeyOf (hash key)) = some (CacheVal.record k) →
      (Validate hash cache rows key).apiKey = some k ∧
      (Validate hash cache rows key).writeTTL = none) ∧
    (∀ (rows : List APIKey) (h : String) (k : APIKey),
      FindByHash rows h = some k → k.isActive = true) ∧
    (∀ hash cache rows key (k : APIKey),
      (cache (cacheKeyOf (hash key)) = none ∨
        cache (cacheKeyOf (hash key)) = some CacheVal.emptyStr) →
      FindByHash rows (hash key) = some k →
      (Validate hash cache rows key).apiKey = some k ∧
      (Validate hash cache rows key).writeTTL = some 300 ∧
      (Validate hash cache rows key).cache (cacheKeyOf (hash key))
        = some (CacheVal.record k)) ∧
    (∀ hash cache rows key,
      (cache (cacheKeyOf (hash key)) = none ∨
        cache (cacheKeyOf (hash key)) = some CacheVal.emptyStr) →
      (∀ r ∈ rows, r.keyHash = hash key → r.isActive = false) →
      (Validate hash cache rows key).apiKey = none) ∧
    (∀ hash cache rows key,
      (∀ x k, cache x = some (CacheVal.record k) → k.isActive = true) →
      ∀ k, (Validate hash cache rows key).apiKey = some k → k.isActive = true) ∧
    (∀ hash cache rows key,
      (∀ x k, cache x = some (CacheVal.record k) → k.isActive = true) →
      ∀ x k, (Validate hash cache rows key).cache x = some (CacheVal.record k) →
        k.isActive = true) ∧
    (∀ hash cache rows,
      middleware.APIKeyValidator "" hash cache rows = middleware.AuthResult.next none) ∧
    (∀ header hash cache rows, header ≠ "" →
      (Validate hash cache rows header.trim).apiKey = none →
      middleware.APIKeyValidator header hash cache rows
        = middleware.AuthResult.unauthorized) := by
  have hdbnone : ∀ (rows : List APIKey) (h : String),
      (∀ r ∈ rows, r.keyHash = h → r.isActive = false) →
      FindByHash rows h = none := by
    intro rows h hrows
    apply List.find?_eq_none.mpr
    intro r hr
    by_cases hkh : r.keyHash = h
    · simp [hkh, hrows r hr hkh]
    · simp [hkh]
  refine ⟨?_, FindByHash_active, ?_, ?_, ?_, ?_, fun hash cache rows => rfl, ?_⟩
  · intro hash cache rows key k hc
    simp [Validate, hc]
  · intro hash cache rows key k hc hf
    rcases hc with hc | hc <;> simp [Validate, hc, hf]
  · intro hash cache rows key hc hrows
    have hnone := hdbnone rows (hash key) hrows
    rcases hc with hc | hc <;> simp [Validate, hc, hnone]
  · intro hash cache rows key hwf k hk
    rcases hcv : cache (cacheKeyOf (hash key)) with _ | cv
    · rcases hf : FindByHash rows (hash key) with _ | k0
      · simp [Validate, hcv, hf] at hk
      · simp [Validate, hcv, hf] at hk
        exact hk ▸ FindByHash_active rows (hash key) k0 hf
    · cases cv with
      | emptyStr =>
          rcases hf : FindByHash rows (hash key) with _ | k0
          · simp [Validate, hcv, hf] at hk
          · simp [Validate, hcv, hf] at hk
            exact hk ▸ FindByHash_active rows (hash key) k0 hf
      | record k1 =>
          simp [Validate, hcv] at hk
          exact hk ▸ hwf (cacheKeyOf (hash key)) k1 hcv
  · intro hash cache rows key hwf x k hx
    rcases hcv : cache (cacheKeyOf (hash key)) with _ | cv
    · rcases hf : FindByHash rows (hash key) with _ | k0
      · simp [Validate, hcv, hf] at hx
        exact hwf x k hx
      · simp [Validate, hcv, hf] at hx
        by_cases hxk : x = cacheKeyOf (hash key)
        · rw [if_pos hxk] at hx
          have hk0 : k0 = k := by
            have := hx
            simp at this
            exact this
          exact hk0 ▸ FindByHash_active rows (hash key) k0 hf
        · rw [if_neg hxk] at hx
          exact hwf x k hx
    · cases cv with
      | emptyStr =>
          rcases hf : FindByHash rows (hash key) with _ | k0
          · simp [Validate, hcv, hf] at hx
            exact hwf x k hx
          · simp [Validate, hcv, hf] at hx
            by_cases hxk : x = cacheKeyOf (hash key)
            · rw [if_pos hxk] at hx
              have hk0 : k0 = k := by
                have := hx
                simp at this
                exact this
              exact hk0 ▸ FindByHash_active rows (hash key) k0 hf
            · rw [if_neg hxk] at hx
              exact hwf x k hx
      | record k1 =>
          simp [Validate, hcv] at hx
          exact hwf x k hx
  · intro header hash cache rows hne hv
    simp [middleware.APIKeyValidator, hne, hv]

end service

namespace service

/-- Concrete active credential used by the C9 witness. -/
def row1 : APIKey := { id := "id1", keyHash := "h1", tier := "basic", isActive := true }

/-- Concrete inactive credential used by the C9 witness. -/
def row2 : APIKey := { id := "id2", keyHash := "h2", tier := "basic", isActive := false }

/-- A cache holding the serialized active credential under its hash key. -/
def cacheWithRow1 : String → Option CacheVal :=
  fun x => if x = "apikey:cache:h1" then some (CacheVal.record row1) else none

/-- C9 witness: the conjuncts of `C9_credential_validation` at a concrete
registry (one active credential hashed "h1", one inactive hashed "h2"),
each hypothesis discharged by evaluation. -/
theorem C9_credential_validation_witness :
    (Validate (fun x => x) cacheWithRow1 [row1] "h1").apiKey = some row1 ∧
    row1.isActive = true ∧
    ((Validate (fun x => x) (fun _ => none) [row1] "h1").writeTTL = some 300 ∧
      (Validate (fun x => x) (fun _ => none) [row1] "h1").cache (cacheKeyOf "h1")
        = some (CacheVal.record row1)) ∧
    (Validate (fun x => x) (fun _ => none) [row2] "h2").apiKey = none ∧
    middleware.APIKeyValidator "" (fun x => x) (fun _ => none) [row1]
      = middleware.AuthResult.next none ∧
    middleware.APIKeyValidator "nokey" (fun x => x) (fun _ => none) []
      = middleware.AuthResult.unauthorized := by
  have h := C9_credential_validation
  refine ⟨(h.1 (fun x => x) cacheWithRow1 [row1] "h1" row1 (by decide)).1,
    h.2.1 [row1] "h1" row1 (by decide),
    ?_, ?_,
    h.2.2.2.2.2.2.1 (fun x => x) (fun _ => none) [row1],
    ?_⟩
  · have h3 := h.2.2.1 (fun x => x) (fun _ => none) [row1] "h1" row1
      (Or.inl rfl) (by decide)
    exact ⟨h3.2.1, h3.2.2⟩
  · exact h.2.2.2.1 (fun x => x) (fun _ => none) [row2] "h2"
      (Or.inl rfl) (by decide)
  · exact h.2.2.2.2.2.2.2 "nokey" (fun x => x) (fun _ => none) [] (by decide) (by decide)

end service
